import Mathlib

/-!
Verification development for the `s3p` caching S3 reverse proxy.

The definitions below are a shallow embedding of the Rust sources:
  * `src/middleware/cache/mod.rs`   — cache layer, keys, lookup, insertion, events
  * `src/middleware/cache/logic.rs` — cacheability / cache intents
  * `src/middleware/mod.rs`         — middleware chain and identity
  * `deps/s3s/codegen/src/ops.rs`   — router construction and resolution
External collaborators (the `moka` store internals, the HTTP cache-policy
library, the generated codecs, and the `webhook::event_types` module, which is
not part of the given sources) are modelled from the specification and kept
abstract as function parameters where possible.
-/

namespace S3P

/-- The key type used by the cache (`type Key = String`). -/
def Key := String

instance : DecidableEq Key := inferInstanceAs (DecidableEq String)

/-- `enum KeyData<'a>` from `middleware/cache/mod.rs`: unified key generation
data for the cacheable operations.  (`prefix` is a Lean keyword, so the
prefix fields are called `pfx`.) -/
inductive KeyData where
  | getObject (bucket object version_id : String)
  | headObject (bucket object version_id : String)
  | objectList (bucket : String) (pfx delim : Option String)
  | objectVersionList (bucket : String) (pfx delim : Option String)
  | bucket (bucket : String)
  | bucketList
deriving DecidableEq

/-- `impl From<&KeyData<'_>> for Key`: the `format!` strings of the source. -/
def KeyData.toKey : KeyData → Key
  | .getObject b o v => "GetObject " ++ b ++ ", " ++ o ++ ", " ++ v
  | .headObject b o v => "HeadObject " ++ b ++ ", " ++ o ++ ", " ++ v
  | .objectList b p d =>
      "ObjectList " ++ b ++ ", " ++ p.getD "" ++ ", " ++ d.getD ""
  | .objectVersionList b p d =>
      "ObjectVersionList " ++ b ++ ", " ++ p.getD "" ++ ", " ++ d.getD ""
  | .bucket b => "Bucket " ++ b
  | .bucketList => "BucketList"

/-- The specification's key recipes, written out from the spec's words
(`"GetObject {bucket}, {object}, {version_id||\"\"}"` and so on), to be
compared with `KeyData.toKey`, which is embedded from the source. -/
def specKeyRecipe : KeyData → String
  | .getObject b o v => "GetObject " ++ b ++ ", " ++ o ++ ", " ++ v
  | .headObject b o v => "HeadObject " ++ b ++ ", " ++ o ++ ", " ++ v
  | .objectList b p d =>
      "ObjectList " ++ b ++ ", " ++ p.getD "" ++ ", " ++ d.getD ""
  | .objectVersionList b p d =>
      "ObjectVersionList " ++ b ++ ", " ++ p.getD "" ++ ", " ++ d.getD ""
  | .bucket b => "Bucket " ++ b
  | .bucketList => "BucketList"

/-- A string is comma-free when the separator character `','` of the key
format does not occur in it. -/
def commaFree (s : String) : Prop := (',' : Char) ∉ s.data

instance (s : String) : Decidable (commaFree s) :=
  inferInstanceAs (Decidable (¬ _ ∈ _))

/-! ### Configuration (`config/mod.rs`) -/

/-- One `{ enabled, ttl?, tti? }` block (`GetObjectSetting` etc.). -/
structure CacheOpSetting where
  enabled : Bool
  ttl : Option Nat
  tti : Option Nat
deriving DecidableEq

/-- `CacheOpsConfig` from `config/mod.rs`. -/
structure CacheOpsConfig where
  get_object : CacheOpSetting
  head_object : CacheOpSetting
  list_objects : CacheOpSetting
  list_object_versions : CacheOpSetting
  head_bucket : CacheOpSetting
  list_buckets : CacheOpSetting
deriving DecidableEq

/-- `CacheMiddlewareConfig` from `config/mod.rs` (times in milliseconds). -/
structure CacheMiddlewareConfig where
  cache_size : Nat
  max_entry_size : Option Nat
  ttl : Option Nat
  tti : Option Nat
  ops : CacheOpsConfig
deriving DecidableEq

/-! ### Decoded operation inputs (the fields the core inspects, §4.3) -/

/-- The fields of `GetObjectInput` inspected by `logic.rs`. -/
structure GetObjectInput where
  bucket : String
  key : String
  version_id : Option String
  range : Option String
  part_number : Option Nat
deriving DecidableEq

/-- The fields of `HeadObjectInput` inspected by `logic.rs`. -/
structure HeadObjectInput where
  bucket : String
  key : String
  version_id : Option String
  range : Option String
  expected_bucket_owner : Option String
deriving DecidableEq

/-- The fields of `ListObjectsInput` inspected by `logic.rs`. -/
structure ListObjectsInput where
  bucket : String
  pfx : Option String
  delimiter : Option String
  expected_bucket_owner : Option String
deriving DecidableEq

/-- The fields of `ListObjectsV2Input` inspected by `logic.rs`. -/
structure ListObjectsV2Input where
  bucket : String
  pfx : Option String
  delimiter : Option String
  expected_bucket_owner : Option String
  max_keys : Option Nat
  start_after : Option String
deriving DecidableEq

/-- The fields of `ListObjectVersionsInput` inspected by `logic.rs`. -/
structure ListObjectVersionsInput where
  bucket : String
  pfx : Option String
  delimiter : Option String
  expected_bucket_owner : Option String
  key_marker : Option String
  max_keys : Option Nat
deriving DecidableEq

/-- The fields of `HeadBucketInput` inspected by `logic.rs`. -/
structure HeadBucketInput where
  bucket : String
  expected_bucket_owner : Option String
deriving DecidableEq

/-- `ListBucketsInput` — no fields are inspected by the cache logic. -/
structure ListBucketsInput where
deriving DecidableEq

/-- The closed operation enumeration (`s3s::ops::OperationType`) restricted to
the variants the cache logic distinguishes; every other of the ~90 operations
is represented by `other` with its name.  Each cacheable variant carries the
decoded input metadata that `try_get_input` would have produced
(the generated codecs are treated as a library of typed codecs, §4.3). -/
inductive OperationType where
  | getObject (input : GetObjectInput)
  | headObject (input : HeadObjectInput)
  | listObjects (input : ListObjectsInput)
  | listObjectsV2 (input : ListObjectsV2Input)
  | listObjectVersions (input : ListObjectVersionsInput)
  | headBucket (input : HeadBucketInput)
  | listBuckets (input : ListBucketsInput)
  | other (name : String)
deriving DecidableEq

/-- `CacheIntent` from `middleware/cache/mod.rs`. -/
structure CacheIntent where
  key : Key
  ttl : Option Nat
  tti : Option Nat

/-! ### Cache intents (`middleware/cache/logic.rs`) -/

/-- `impl CacheLogic for ops::GetObject`. -/
def GetObjectInput.make_cache_intent (des : GetObjectInput)
    (config : CacheMiddlewareConfig) : Option CacheIntent :=
  let op_config := config.ops.get_object
  if !op_config.enabled then none
  else if des.range.isSome || des.part_number.isSome then none
  else some ⟨(KeyData.getObject des.bucket des.key (des.version_id.getD "")).toKey,
             op_config.ttl, op_config.tti⟩

/-- `impl CacheLogic for ops::HeadObject`. -/
def HeadObjectInput.make_cache_intent (des : HeadObjectInput)
    (config : CacheMiddlewareConfig) : Option CacheIntent :=
  let op_config := config.ops.head_object
  if !op_config.enabled then none
  else if des.expected_bucket_owner.isSome || des.range.isSome then none
  else some ⟨(KeyData.headObject des.bucket des.key (des.version_id.getD "")).toKey,
             op_config.ttl, op_config.tti⟩

/-- `impl CacheLogic for ops::ListObjects`. -/
def ListObjectsInput.make_cache_intent (des : ListObjectsInput)
    (config : CacheMiddlewareConfig) : Option CacheIntent :=
  let op_config := config.ops.list_objects
  if !op_config.enabled then none
  else if des.expected_bucket_owner.isSome then none
  else some ⟨(KeyData.objectList des.bucket des.pfx des.delimiter).toKey,
             op_config.ttl, op_config.tti⟩

/-- `impl CacheLogic for ops::ListObjectsV2` (note: the V2 key renders the
delimiter as `None`, and the config block is the shared `list_objects` one). -/
def ListObjectsV2Input.make_cache_intent (des : ListObjectsV2Input)
    (config : CacheMiddlewareConfig) : Option CacheIntent :=
  let op_config := config.ops.list_objects
  if !op_config.enabled then none
  else if des.expected_bucket_owner.isSome || des.max_keys.isSome
          || des.start_after.isSome then none
  else some ⟨(KeyData.objectList des.bucket des.pfx none).toKey,
             op_config.ttl, op_config.tti⟩

/-- `impl CacheLogic for ops::ListObjectVersions`. -/
def ListObjectVersionsInput.make_cache_intent (des : ListObjectVersionsInput)
    (config : CacheMiddlewareConfig) : Option CacheIntent :=
  let op_config := config.ops.list_object_versions
  if !op_config.enabled then none
  else if des.expected_bucket_owner.isSome || des.key_marker.isSome
          || des.max_keys.isSome then none
  else some ⟨(KeyData.objectVersionList des.bucket des.pfx des.delimiter).toKey,
             op_config.ttl, op_config.tti⟩

/-- `impl CacheLogic for ops::HeadBucket`. -/
def HeadBucketInput.make_cache_intent (des : HeadBucketInput)
    (config : CacheMiddlewareConfig) : Option CacheIntent :=
  let op_config := config.ops.head_bucket
  if !op_config.enabled then none
  else if des.expected_bucket_owner.isSome then none
  else some ⟨(KeyData.bucket des.bucket).toKey, op_config.ttl, op_config.tti⟩

/-- `impl CacheLogic for ops::ListBuckets`. -/
def ListBucketsInput.make_cache_intent (_des : ListBucketsInput)
    (config : CacheMiddlewareConfig) : Option CacheIntent :=
  let op_config := config.ops.list_buckets
  if !op_config.enabled then none
  else some ⟨KeyData.bucketList.toKey, op_config.ttl, op_config.tti⟩

/-- `impl CacheLogic for S3Extension`: dispatch over the operation tag of the
request's S3 extension (`op : Option OperationType`); any operation outside
the cacheable set yields `None`. -/
def S3Extension.make_cache_intent (op : Option OperationType)
    (config : CacheMiddlewareConfig) : Option CacheIntent :=
  match op with
  | none => none
  | some (.getObject des) => des.make_cache_intent config
  | some (.headObject des) => des.make_cache_intent config
  | some (.listObjects des) => des.make_cache_intent config
  | some (.listObjectsV2 des) => des.make_cache_intent config
  | some (.listObjectVersions des) => des.make_cache_intent config
  | some (.headBucket des) => des.make_cache_intent config
  | some (.listBuckets des) => des.make_cache_intent config
  | some (.other _) => none

/-! ### Cached responses and the weighted store (`middleware/cache/mod.rs`) -/

/-- Opaque output metadata: the core never inspects its shape beyond cloning
it and passing it back to the codec library (§4.3), so a token suffices. -/
def Meta := String

instance : DecidableEq Meta := inferInstanceAs (DecidableEq String)

/-- The source's own `enum Either<L, R>`. -/
inductive Either (L R : Type) where
  | left (l : L)
  | right (r : R)
deriving DecidableEq

/-- `enum CacheData`: the tagged union of cached payloads.  `Bytes` are a list
of bytes. -/
inductive CacheData where
  | getObject (meta : Meta) (bytes : List Nat)
  | headObject (meta : Meta)
  | listObjects (meta : Either Meta Meta)
  | listObjectVersions (meta : Meta)
  | bucket (meta : Meta)
  | listBuckets (meta : Meta)
deriving DecidableEq

/-- `struct CachedResponse` (times in milliseconds, `updated_at` an absolute
timestamp). -/
structure CachedResponse where
  ttl : Option Nat
  tti : Option Nat
  updated_at : Nat
  data : CacheData
deriving DecidableEq

/-- `CachedResponse::size`: bytes length for `GetObject`, `1` otherwise. -/
def CachedResponse.size (v : CachedResponse) : Nat :=
  match v.data with
  | .getObject _ bytes => bytes.length
  | _ => 1

/-- The weigher installed by `impl From<CacheMiddlewareConfig> for CacheLayer`:
`v.size().try_into().unwrap_or(u32::MAX)`, i.e. the size saturated at
`u32::MAX = 2^32 - 1`. -/
def CachedResponse.weight (v : CachedResponse) : Nat :=
  min v.size (2 ^ 32 - 1)

/-- Modelled from the spec: the concurrent key→entry map (the `moka` cache is
an external crate).  §4.5 Storage: "when the weighted total would exceed the
cap, an eviction policy removes entries until the invariant holds"; the spec
fixes no eviction order, so the model evicts from the front of the entry list
(oldest first; entries are appended at the tail). -/
structure CacheStore where
  capacity : Nat
  entries : List (Key × CachedResponse)
deriving DecidableEq

/-- Total weight of the stored entries. -/
def CacheStore.totalWeight (s : CacheStore) : Nat :=
  (s.entries.map (fun e => e.2.weight)).sum

/-- Weight of a raw entry list. -/
def entriesWeight (l : List (Key × CachedResponse)) : Nat :=
  (l.map (fun e => e.2.weight)).sum

/-- Modelled from the spec: evict entries until the weighted total is within
the capacity. -/
def evict (cap : Nat) : List (Key × CachedResponse) → List (Key × CachedResponse)
  | [] => []
  | e :: rest => if entriesWeight (e :: rest) ≤ cap then e :: rest else evict cap rest

/-- Lookup (`cache.get(key)`). -/
def CacheStore.get (s : CacheStore) (key : Key) : Option CachedResponse :=
  (s.entries.find? (fun e => e.1 = key)).map (·.2)

/-- Insert (`cache.insert(key, cr)`): replaces any entry with the same key and
then enforces the weight bound by eviction. -/
def CacheStore.insert (s : CacheStore) (key : Key) (v : CachedResponse) : CacheStore :=
  { s with entries := evict s.capacity ((s.entries.filter (fun e => e.1 ≠ key)) ++ [(key, v)]) }

/-- Removal (`cache.remove(key)` / `cache.invalidate(key)`). -/
def CacheStore.invalidate (s : CacheStore) (key : Key) : CacheStore :=
  { s with entries := s.entries.filter (fun e => e.1 ≠ key) }

/-- The empty store of a given capacity (`Cache::builder().max_capacity(..)`). -/
def CacheStore.empty (cap : Nat) : CacheStore := ⟨cap, []⟩

/-- The mutating store operations reachable from the cache layer. -/
inductive CacheOp where
  | insert (key : Key) (v : CachedResponse)
  | invalidate (key : Key)

/-- Run a sequence of store operations. -/
def CacheStore.run (s : CacheStore) : List CacheOp → CacheStore
  | [] => s
  | .insert k v :: rest => (s.insert k v).run rest
  | .invalidate k :: rest => (s.invalidate k).run rest

/-! ### Requests, responses, pipeline (`req/*`, `middleware/mod.rs`) -/

/-- A body stream: either readable bytes, or a stream whose full buffering
(`store_all_unlimited`) fails. -/
inductive Body where
  | bytes (bs : List Nat)
  | failing
deriving DecidableEq

/-- `store_all_unlimited().await.ok()`: all bytes of the body, or `none` when
reading the stream fails. -/
def Body.store_all : Body → Option (List Nat)
  | .bytes bs => some bs
  | .failing => none

/-- `struct Request` (`req/request.rs`), restricted to the parts the cache
layer inspects: the header map and the S3 extension's operation tag with its
memoized decoded input (`extensions.get::<S3Extension>()`). -/
structure Request where
  headers : List (String × String)
  op : Option OperationType

/-- `req.headers.get(name).is_some()` (header names are case-insensitive on
the wire; the model stores them lower-case). -/
def Request.hasHeader (req : Request) (name : String) : Bool :=
  req.headers.any (fun h => h.1 = name)

/-- The operation marker of a response's S3 extension together with the
write-once decoded output metadata (`S3Extension.op` / `S3Extension.data` on
the return path). -/
inductive OutputMeta where
  | getObject (m : Meta)
  | headObject (m : Meta)
  | listObjects (m : Meta)
  | listObjectsV2 (m : Meta)
  | listObjectVersions (m : Meta)
  | headBucket (m : Meta)
  | listBuckets (m : Meta)
deriving DecidableEq

/-- Operation tags as they appear on the response path (zero-sized markers). -/
inductive OpTag where
  | getObject
  | headObject
  | listObjects
  | listObjectsV2
  | listObjectVersions
  | headBucket
  | listBuckets
  | other (name : String)
deriving DecidableEq

/-- The S3 extension carried by a response on the return path. -/
structure RespExt where
  op : Option OpTag
  data : Option OutputMeta
deriving DecidableEq

/-- `struct Response` (`req/response.rs`): status, headers, body and the
optional S3 extension. -/
structure Response where
  status : Nat
  headers : List (String × String)
  body : Body
  s3ext : Option RespExt
deriving DecidableEq

/-- `enum SendError` (`req/mod.rs`).  Error payload reports are plain
strings. -/
inductive SendError where
  | internal (msg : String)
  | requestErr (resp : Response) (msg : String)
  | responseErr (resp : Response) (msg : String)
deriving DecidableEq

/-- Outcome of a stage call; `panicked` marks a Rust panic (e.g. an `unwrap`
on `None`), which is not a `SendError`. -/
inductive CallResult (α : Type) where
  | ok (a : α)
  | err (e : SendError)
  | panicked (msg : String)
deriving DecidableEq

/-- A middleware stage, shallowly: `call(envelope, next)` where `next` is the
rest of the chain (`middleware/mod.rs`, trait `Layer` / `NextLayer`). -/
def LayerFn : Type :=
  Request → (Request → CallResult Response) → CallResult Response

/-- `impl Layer for Chain`: `let then = |req| self.next.call(req, next);
self.current.call(req, &then)`. -/
def Chain.call (current next_stage : LayerFn) : LayerFn :=
  fun req next => current req (fun r => next_stage r next)

/-- `impl Layer for Identity`: `next.call(req)`. -/
def Identity.call : LayerFn :=
  fun req next => next req

/-! ### Cache lookup and the request path (`middleware/cache/mod.rs`) -/

/-- `struct RawResponse` (`req/response.rs`): what the external codec yields
when a cached payload is serialized back to the wire. -/
structure RawResponse where
  status : Nat
  headers : List (String × String)
  bytes : Option (List Nat)
deriving DecidableEq

/-- `impl TryFrom<CachedResponse> for Response`: each `CacheData` variant is
serialized by the external codec (`ser`, the `try_into` calls of the source);
the reconstructed response carries no S3 extension. -/
def tryIntoResponse (ser : CacheData → Option RawResponse)
    (cr : CachedResponse) : Option Response :=
  (ser cr.data).map fun raw =>
    { status := raw.status, headers := raw.headers,
      body := .bytes (raw.bytes.getD []), s3ext := none }

/-- `enum CacheState<T>` from the source; the `None` variant is called
`noEntry` here to avoid clashing with `Option.none`. -/
inductive CacheState (α : Type) where
  | fresh (a : α)
  | stale (a : α)
  | noEntry
deriving DecidableEq

/-- `http_cache_semantics::BeforeRequest`: either the cached response is fresh
(with headers to merge into it), or it is stale, carrying conditional headers
for the forwarded request and whether the cached response matches the
request. -/
inductive BeforeRequest where
  | fresh (parts_headers : List (String × String))
  | stale (request_headers : List (String × String)) (matched : Bool)

/-- `CacheLayer::get_matching_response`.  The external cache-policy library is
abstracted by `policyTtl` (the policy's `time_to_live(resp_time)`, in
milliseconds, of the policy built from `(request, response, resp_time,
shared=false)`) and `beforeRequest` (its `before_request(req, now)` dispatch).
Returns the cache state together with the store and request as left by the
call (the source mutates both in place). -/
def get_matching_response (cache : CacheStore) (key : Key) (req : Request)
    (ser : CacheData → Option RawResponse)
    (policyTtl : Request → Response → Nat → Nat)
    (beforeRequest : Request → Response → Nat → BeforeRequest)
    (now : Nat) : CacheState Response × CacheStore × Request :=
  match cache.get key with
  | none => (.noEntry, cache, req)
  | some data =>
    let resp_time := data.updated_at
    match tryIntoResponse ser data with
    | none => (.noEntry, cache, req)
    | some resp =>
      if policyTtl req resp resp_time = 0 then
        (.fresh resp, cache, req)
      else
        match beforeRequest req resp now with
        | .fresh parts => (.fresh { resp with headers := resp.headers ++ parts }, cache, req)
        | .stale request_headers matched =>
          if matched = false then
            (.noEntry, cache.invalidate key, req)
          else
            (.stale resp, cache, { req with headers := req.headers ++ request_headers })

/-- `impl AsyncFrom<&mut S3Response<ops::GetObject>> for CachedResponse`:
take the body, buffer it fully, reattach (the buffered copy on success, the
original stream on failure), then build the payload from
`bytes.unwrap()` — which panics when buffering failed. -/
def getObjectAsyncFrom (meta : Meta) (resp : Response) (now : Nat) :
    CallResult (CachedResponse × Response) :=
  let bytes := resp.body.store_all
  let resp' : Response :=
    match bytes with
    | some b => { resp with body := .bytes b }
    | none => resp
  match bytes with
  | some b => .ok (⟨none, none, now, .getObject meta b⟩, resp')
  | none => .panicked "called Option::unwrap on a None value"

/-- Outcome of building a `CachedResponse` from a response on the insertion
path of `CacheLayer::call`. -/
inductive MkOutcome where
  | made (cr : CachedResponse) (resp : Response)
  | noData
  | unsupported
  | panicked (msg : String)
deriving DecidableEq

/-- The `match op { ... }` of `CacheLayer::call` that casts the response to a
typed `S3Response` (`S3Response::try_from` requires the decoded output
metadata of the right operation, else the call errors) and then builds the
`CachedResponse` via `async_from`. -/
def mkCachedResponse (tag : OpTag) (data : Option OutputMeta) (resp : Response)
    (now : Nat) : MkOutcome :=
  match tag with
  | .getObject =>
    match data with
    | some (.getObject m) =>
      match getObjectAsyncFrom m resp now with
      | .ok (cr, resp') => .made cr resp'
      | .panicked msg => .panicked msg
      | .err _ => .noData
    | _ => .noData
  | .headObject =>
    match data with
    | some (.headObject m) => .made ⟨none, none, now, .headObject m⟩ resp
    | _ => .noData
  | .listObjects =>
    match data with
    | some (.listObjects m) => .made ⟨none, none, now, .listObjects (.left m)⟩ resp
    | _ => .noData
  | .listObjectsV2 =>
    match data with
    | some (.listObjectsV2 m) => .made ⟨none, none, now, .listObjects (.right m)⟩ resp
    | _ => .noData
  | .listObjectVersions =>
    match data with
    | some (.listObjectVersions m) => .made ⟨none, none, now, .listObjectVersions m⟩ resp
    | _ => .noData
  | .headBucket =>
    match data with
    | some (.headBucket m) => .made ⟨none, none, now, .bucket m⟩ resp
    | _ => .noData
  | .listBuckets =>
    match data with
    | some (.listBuckets m) => .made ⟨none, none, now, .listBuckets m⟩ resp
    | _ => .noData
  | .other _ => .unsupported

/-- The insertion phase at the end of `CacheLayer::call` (after `next`
produced a response): if the response carries an S3 extension, build the
cached payload, apply the intent's TTL/TTI, and insert under the intent's
key; responses of unsupported operations and responses with no extension are
returned unchanged. -/
def insertPhase (key : Key) (intent : CacheIntent) (resp : Response) (now : Nat)
    (cache : CacheStore) : CallResult (Response × CacheStore) :=
  match resp.s3ext with
  | none => .ok (resp, cache)
  | some s3_ext =>
    match s3_ext.op with
    | none => .err (.internal "S3 Extension has no operation")
    | some tag =>
      match mkCachedResponse tag s3_ext.data resp now with
      | .noData => .err (.internal "No response data found for operation")
      | .unsupported => .ok (resp, cache)
      | .panicked msg => .panicked msg
      | .made cr resp' =>
        let cr := { cr with ttl := intent.ttl, tti := intent.tti }
        .ok (resp', cache.insert key cr)

/-- `CacheLayer::call` (`impl Layer for CacheLayer`): intent check, recording
of the request's `ETag` header, cache consultation, forwarding, the special
handling of `SendError::ResponseErr` with status 304 after a stale hit, and
the insertion phase. -/
def CacheLayer.call (config : CacheMiddlewareConfig) (cache : CacheStore)
    (ser : CacheData → Option RawResponse)
    (policyTtl : Request → Response → Nat → Nat)
    (beforeRequest : Request → Response → Nat → BeforeRequest)
    (now : Nat) (req : Request) (next : Request → CallResult Response) :
    CallResult (Response × CacheStore) :=
  match S3Extension.make_cache_intent req.op config with
  | none =>
    match next req with
    | .ok r => .ok (r, cache)
    | .err e => .err e
    | .panicked m => .panicked m
  | some intent =>
    let key := intent.key
    let has_etag := req.hasHeader "etag"
    match get_matching_response cache key req ser policyTtl beforeRequest now with
    | (.fresh resp, cache', _) => .ok (resp, cache')
    | (.stale c, cache', req') =>
      match next req' with
      | .ok r => insertPhase key intent r now cache'
      | .err (.responseErr err_resp report) =>
        if err_resp.status = 304 then
          if has_etag = false then insertPhase key intent c now cache'
          else .ok (err_resp, cache')
        else .err (.responseErr err_resp report)
      | .err e => .err e
      | .panicked m => .panicked m
    | (.noEntry, cache', req') =>
      match next req' with
      | .ok r => insertPhase key intent r now cache'
      | .err e => .err e
      | .panicked m => .panicked m

/-! ### Webhook events and the invalidation worker -/

/-- Modelled from the spec: the `webhook::event_types` module is not among the
given sources.  §3: `event_type` is one of `ObjectCreated/{Put,Post,Copy,
CompleteMultipartUpload,Any}`, `ObjectRemoved/{Delete,Any}`,
`LifecycleExpiration/{Delete}`, `ObjectRestore/{Post,Completed,Delete,Any}`. -/
inductive ObjectCreatedEvent where
  | put
  | post
  | copy
  | completeMultipartUpload
  | any
deriving DecidableEq

/-- Modelled from the spec: `ObjectRemoved/{Delete,Any}`. -/
inductive ObjectRemovedEvent where
  | delete
  | any
deriving DecidableEq

/-- Modelled from the spec: `LifecycleExpiration/{Delete}`. -/
inductive LifecycleExpirationEvent where
  | delete
deriving DecidableEq

/-- Modelled from the spec: `ObjectRestore/{Post,Completed,Delete,Any}`. -/
inductive ObjectRestoreEvent where
  | post
  | completed
  | delete
  | any
deriving DecidableEq

/-- Modelled from the spec: the event-type families of an S3 event record. -/
inductive S3EventType where
  | objectCreated (e : ObjectCreatedEvent)
  | objectRemoved (e : ObjectRemovedEvent)
  | lifecycleExpiration (e : LifecycleExpirationEvent)
  | objectRestore (e : ObjectRestoreEvent)
deriving DecidableEq

/-- Modelled from the spec: a record `{ event_type, s3: { bucket{name},
object{key, version_id} } }`. -/
structure S3Record where
  event_type : S3EventType
  bucketName : String
  objectKey : String
  versionId : String
deriving DecidableEq

/-- Modelled from the spec: an `S3Event` is a sequence of records. -/
structure S3WebhookEvent where
  records : List S3Record
deriving DecidableEq

/-- `enum WebhookEvent` (`webhook/mod.rs`): `S3`, raw `Http`, or `Other`. -/
inductive WebhookEvent where
  | s3 (e : S3WebhookEvent)
  | http (raw : String)
  | other (t : String)
deriving DecidableEq

/-- The invalidations performed for one record by `CacheLayer::event_handler`:
every handled event type invalidates the `GetObject` key and then the
`HeadObject` key built from the record's `(bucket, key, version_id)`. -/
def applyRecord (cache : CacheStore) (record : S3Record) : CacheStore :=
  let invalidateBoth : CacheStore :=
    ((cache.invalidate (KeyData.getObject record.bucketName record.objectKey
        record.versionId).toKey).invalidate
      (KeyData.headObject record.bucketName record.objectKey
        record.versionId).toKey)
  match record.event_type with
  | .objectCreated ev =>
    match ev with
    | .any | .completeMultipartUpload | .copy | .put => invalidateBoth
    | .post => invalidateBoth
  | .objectRemoved ev =>
    match ev with
    | .any | .delete => invalidateBoth
  | .lifecycleExpiration ev =>
    match ev with
    | .delete => invalidateBoth
  | .objectRestore ev =>
    match ev with
    | .any | .completed | .delete | .post => invalidateBoth

/-- The effect of one received event in `CacheLayer::event_handler`: non-S3
variants are discarded by the `filter_map`, S3 events invalidate record by
record. -/
def applyEvent (cache : CacheStore) : WebhookEvent → CacheStore
  | .s3 e => e.records.foldl applyRecord cache
  | .http _ => cache
  | .other _ => cache

/-! ### Router construction and resolution (`deps/s3s/codegen/src/ops.rs`)

The codegen emits a `resolve_route` function from a static route table; the
model reproduces the generated control flow: group lookup by method and path
pattern, the sorted candidate order, the query-tag/pattern scan, the
required-query/header scan, and the final catch-all default. -/

/-- `struct Route` of the codegen: one row of the operation catalog. -/
structure Route where
  name : String
  query_tag : Option String
  query_patterns : List (String × String)
  required_headers : List String
  required_query_strings : List String
  needs_full_body : Bool
deriving DecidableEq

/-- The `priority` component of the codegen's sort key:
`1` for query tag and query patterns, `2` for only a query tag, `3` for only
query patterns, `4` for neither. -/
def routeClass (r : Route) : Nat :=
  match r.query_tag.isSome, !r.query_patterns.isEmpty with
  | true, true => 1
  | true, false => 2
  | false, true => 3
  | false, false => 4

/-- The codegen's sort key
`(priority, Reverse(|qp|), Reverse(|qs|), Reverse(|hs|), name)`, as a
lexicographic product (the `Reverse` components live in `ℕᵒᵈ`). -/
abbrev RouteKey : Type := Nat ×ₗ (ℕᵒᵈ ×ₗ (ℕᵒᵈ ×ₗ (ℕᵒᵈ ×ₗ String)))

/-- `sort_by_key` key of a route. -/
def sortKey (r : Route) : RouteKey :=
  toLex (routeClass r,
    toLex (OrderDual.toDual r.query_patterns.length,
      toLex (OrderDual.toDual r.required_query_strings.length,
        toLex (OrderDual.toDual r.required_headers.length, r.name))))

/-- The route order used by `collect_routes`. -/
def routeLE (a b : Route) : Prop := sortKey a ≤ sortKey b

instance : DecidableRel routeLE :=
  fun a b => inferInstanceAs (Decidable (sortKey a ≤ sortKey b))

instance : IsTotal Route routeLE := ⟨fun a b => le_total (sortKey a) (sortKey b)⟩

instance : IsTrans Route routeLE := ⟨fun _ _ _ => le_trans⟩

/-- `vec.sort_by_key(..)` of `collect_routes` (a stable sort). -/
def sortRoutes (l : List Route) : List Route := l.insertionSort routeLE

/-- The ordered query set.  Modelled from the spec: `s3s::http::OrderedQs` is
not among the given sources; §3 specifies a preserved-order list of
`(name, value)` pairs with membership test `has(name)` and exact-value check
`check_pattern(name, value)`. -/
structure OrderedQs where
  pairs : List (String × String)

/-- Modelled from the spec: membership test `has(name)`. -/
def OrderedQs.has (qs : OrderedQs) (name : String) : Bool :=
  qs.pairs.any (fun p => decide (p.1 = name))

/-- Modelled from the spec: exact-value check `check_pattern(name, value)`. -/
def check_query_pattern (qs : OrderedQs) (n v : String) : Bool :=
  qs.pairs.any (fun p => decide (p.1 = n) && decide (p.2 = v))

/-- `S3Path` patterns: `Root`, `Bucket{..}`, `Object{..}`. -/
inductive S3PathPattern where
  | root
  | bucket
  | object
deriving DecidableEq

/-- HTTP methods: the five the router recognizes, plus everything else. -/
inductive HttpMethod where
  | head
  | get
  | post
  | put
  | delete
  | other (s : String)
deriving DecidableEq

/-- Result of route resolution: the chosen operation (by name) together with
its `needs_full_body` flag, or `UnknownOperation`. -/
inductive RouteResult where
  | ok (name : String) (needs_full_body : Bool)
  | unknownOperation
deriving DecidableEq

/-- The phase-1 test emitted per route inside `if let Some(qs)`:
dispatch on `(has_query_tag, has_query_patterns)`; the codegen asserts at
most one query pattern per route and uses `qp.first()`. -/
def matchesPhase1 (qs : OrderedQs) (r : Route) : Bool :=
  match r.query_tag, r.query_patterns with
  | some tag, (n, v) :: _ => qs.has tag && check_query_pattern qs n v
  | some tag, [] => qs.has tag
  | none, (n, v) :: _ => check_query_pattern qs n v
  | none, [] => false

/-- `is_final_op`: a catch-all route — no query tag, no query patterns, no
required queries, no required headers. -/
def isFinalOp (r : Route) : Bool :=
  r.required_headers.isEmpty && r.required_query_strings.isEmpty &&
    r.query_patterns.isEmpty && r.query_tag.isNone

/-- The phase-2 test emitted per route after the query block: only routes
without query tag and patterns participate; a route with required query
strings is guarded by `if let Some(qs)`; all required queries and headers
must be present. -/
def matchesPhase2 (qs : Option OrderedQs) (headers : List String) (r : Route) : Bool :=
  if r.query_tag.isSome || !r.query_patterns.isEmpty then false
  else if r.required_query_strings.isEmpty && r.required_headers.isEmpty then false
  else
    match r.required_query_strings, qs with
    | [], _ => r.required_headers.all (fun h => headers.contains h)
    | _ :: _, none => false
    | rq, some q => rq.all (fun s => q.has s) && r.required_headers.all (fun h => headers.contains h)

/-- The result of the phase-1 scan: the generated query block runs only
inside `if let Some(qs)`, and the first matching route returns. -/
def phase1Result (group : List Route) : Option OrderedQs → Option Route
  | some q => group.find? (matchesPhase1 q)
  | none => none

/-- The generated body for a group of more than one route: the phase-1 scan
(first match returns), the phase-2 scan, then the unique catch-all (the last
route of the sorted group) if the group has one, else `UnknownOperation`. -/
def resolveGroupBig (group : List Route) (qs : Option OrderedQs)
    (headers : List String) : RouteResult :=
  match phase1Result group qs with
  | some r => .ok r.name r.needs_full_body
  | none =>
    match group.find? (matchesPhase2 qs headers) with
    | some r => .ok r.name r.needs_full_body
    | none =>
      if (group.filter isFinalOp).length = 1 then
        match group.getLast? with
        | some r => .ok r.name r.needs_full_body
        | none => .unknownOperation
      else .unknownOperation

/-- Resolution within one `(method, path pattern)` group, over the sorted
candidate list: a missing group and an empty group resolve to
`UnknownOperation`; a singleton group returns its route unconditionally
(the codegen asserts it is a catch-all); larger groups run the generated
match body. -/
def resolveGroup : List Route → Option OrderedQs → List String → RouteResult
  | [], _, _ => .unknownOperation
  | [r], _, _ => .ok r.name r.needs_full_body
  | r₁ :: r₂ :: rs, qs, headers => resolveGroupBig (r₁ :: r₂ :: rs) qs headers

/-- `resolve_route`: dispatch on the method (unrecognized methods resolve to
`UnknownOperation` via the generated `_` arm), then on the path pattern, then
resolve within the sorted group. -/
def resolve_route (table : HttpMethod → S3PathPattern → List Route)
    (m : HttpMethod) (p : S3PathPattern) (qs : Option OrderedQs)
    (headers : List String) : RouteResult :=
  match m with
  | .other _ => .unknownOperation
  | _ => resolveGroup (sortRoutes (table m p)) qs headers

/-! ### Concrete sample values used by witnesses and counterexamples -/

/-- A per-operation setting with caching enabled and no explicit expiry. -/
def enabledSetting : CacheOpSetting := ⟨true, none, none⟩

/-- All six operations enabled. -/
def allEnabledOps : CacheOpsConfig :=
  ⟨enabledSetting, enabledSetting, enabledSetting, enabledSetting,
   enabledSetting, enabledSetting⟩

/-- A cache middleware configuration with everything enabled. -/
def sampleConfig : CacheMiddlewareConfig := ⟨100, none, none, none, allEnabledOps⟩

/-- A cached `GetObject` entry (body bytes `"hi"`), created at time 5. -/
def staleCachedEntry : CachedResponse := ⟨none, none, 5, .getObject "obj-meta" [104, 105]⟩

/-- The key of `GetObject` on bucket `b`, object `o`, no version. -/
def getObjectKeyBO : Key := (KeyData.getObject "b" "o" "").toKey

/-- A store holding the cached `GetObject` entry. -/
def sampleStore : CacheStore := ⟨100, [(getObjectKeyBO, staleCachedEntry)]⟩

/-- A serializer that reconstructs a `200` wire response with body `"hi"`. -/
def sampleSer : CacheData → Option RawResponse := fun _ => some ⟨200, [], some [104, 105]⟩

/-- The wire response reconstructed from the cached entry. -/
def cachedWireResponse : Response := ⟨200, [], .bytes [104, 105], none⟩

/-- A client `GetObject b/o` request carrying its own conditional header
`If-None-Match` (and no `ETag` header). -/
def conditionalReq : Request :=
  ⟨[("if-none-match", "abc")], some (.getObject ⟨"b", "o", none, none, none⟩)⟩

/-- An upstream `304 Not Modified` response. -/
def resp304 : Response := ⟨304, [], .bytes [], none⟩

/-- An upstream stage failing with `SendError::ResponseErr` carrying a 304. -/
def next304 : Request → CallResult Response := fun _ => .err (.responseErr resp304 "Not Modified")

/-- A cache policy computing a nonzero TTL. -/
def stalePolicyTtl : Request → Response → Nat → Nat := fun _ _ _ => 1000

/-- A cache policy whose `before_request` yields a matching stale state with
the proxy's conditional headers. -/
def staleBeforeRequest : Request → Response → Nat → BeforeRequest :=
  fun _ _ _ => .stale [("if-none-match", "abc")] true

/-- A `206 Partial Content` response tagged `GetObject`, with output
metadata attached. -/
def resp206 : Response := ⟨206, [], .bytes [1, 2], some ⟨some .getObject, some (.getObject "m")⟩⟩

/-- An intent with a per-operation TTL of 7 and TTI of 8. -/
def intent206 : CacheIntent := ⟨"k", some 7, some 8⟩

/-- A cached `HeadObject` entry created at time 5. -/
def headEntry : CachedResponse := ⟨none, none, 5, .headObject "hm"⟩

/-- A store holding the `HeadObject` entry under key `"k"`. -/
def headStore : CacheStore := ⟨10, [("k", headEntry)]⟩

/-- A serializer reconstructing a bare `200` (no body bytes). -/
def headSer : CacheData → Option RawResponse := fun _ => some ⟨200, [], none⟩

/-- The wire response reconstructed by `headSer`. -/
def headResp : Response := ⟨200, [], .bytes [], none⟩

/-- A cache policy computing a TTL of exactly zero. -/
def zeroTtlPolicy : Request → Response → Nat → Nat := fun _ _ _ => 0

/-- A request with no headers and no operation. -/
def emptyReq : Request := ⟨[], none⟩

/-- A `before_request` dispatch answering `Fresh`. -/
def brFresh : Request → Response → Nat → BeforeRequest := fun _ _ _ => .fresh []

/-- A `before_request` dispatch answering a non-matching `Stale`. -/
def brStaleNoMatch : Request → Response → Nat → BeforeRequest := fun _ _ _ => .stale [] false

/-- A `GetObject` response whose body stream fails to buffer. -/
def failingGetResponse : Response := ⟨200, [], .failing, none⟩

/-- The `PUT /bucket?acl` route: a query tag and nothing else. -/
def aclRoute : Route := ⟨"PutBucketAcl", some "acl", [], [], [], false⟩

/-- The `PUT /bucket` catch-all route. -/
def catchAllRoute : Route := ⟨"CreateBucket", none, [], [], [], false⟩

/-- A two-route `(PUT, Bucket)` group. -/
def sampleGroup : List Route := [aclRoute, catchAllRoute]

/-! ## Theorems -/

/-- Splitting a list at a separator that occurs in neither left part is
unambiguous. -/
theorem append_sep_inj {α : Type} (c : α) :
    ∀ (x x' y y' : List α), c ∉ x → c ∉ x' →
      x ++ c :: y = x' ++ c :: y' → x = x' ∧ y = y'
  | [], [], _, _, _, _, h => ⟨rfl, (List.cons.injEq .. ▸ h).2⟩
  | [], a :: t, y, y', hx, hx', h => by
    simp only [List.nil_append, List.cons_append, List.cons.injEq] at h
    exact absurd (h.1 ▸ List.mem_cons_self a t) (h.1 ▸ hx')
  | a :: t, [], y, y', hx, hx', h => by
    simp only [List.nil_append, List.cons_append, List.cons.injEq] at h
    exact absurd (h.1 ▸ List.mem_cons_self a t) (h.1.symm ▸ hx)
  | a :: t, b :: t', y, y', hx, hx', h => by
    simp only [List.cons_append, List.cons.injEq] at h
    have ih := append_sep_inj c t t' y y'
      (fun hc => hx (List.mem_cons_of_mem a hc))
      (fun hc => hx' (List.mem_cons_of_mem b hc)) h.2
    exact ⟨by rw [h.1, ih.1], ih.2⟩

/-- A three-field key `hdr ++ b ++ ", " ++ o ++ ", " ++ v` (at the character
level) determines its fields when the first two fields are comma-free. -/
theorem key3_inj (hdr b o v b' o' v' : List Char)
    (hb : (',' : Char) ∉ b) (hb' : (',' : Char) ∉ b')
    (ho : (',' : Char) ∉ o) (ho' : (',' : Char) ∉ o')
    (h : hdr ++ (b ++ ',' :: ' ' :: (o ++ ',' :: ' ' :: v)) =
         hdr ++ (b' ++ ',' :: ' ' :: (o' ++ ',' :: ' ' :: v'))) :
    b = b' ∧ o = o' ∧ v = v' := by
  have h1 := List.append_cancel_left h
  obtain ⟨hbb, h2⟩ := append_sep_inj ',' b b' _ _ hb hb' h1
  have h3 : o ++ ',' :: ' ' :: v = o' ++ ',' :: ' ' :: v' := by
    simpa using h2
  obtain ⟨hoo, h4⟩ := append_sep_inj ',' o o' _ _ ho ho' h3
  exact ⟨hbb, hoo, by simpa using h4⟩

/-- The character data of a three-field key string. -/
theorem key_string_data (hdr b o v : String) :
    (hdr ++ b ++ ", " ++ o ++ ", " ++ v).data =
      hdr.data ++ (b.data ++ ',' :: ' ' :: (o.data ++ ',' :: ' ' :: v.data)) := by
  simp [String.data_append]

/-- Injectivity of the three-field key format on comma-free fields, at the
string level. -/
theorem key_string_inj (hdr b o v b' o' v' : String)
    (hb : commaFree b) (hb' : commaFree b') (ho : commaFree o) (ho' : commaFree o')
    (h : hdr ++ b ++ ", " ++ o ++ ", " ++ v = hdr ++ b' ++ ", " ++ o' ++ ", " ++ v') :
    b = b' ∧ o = o' ∧ v = v' := by
  have hd : (hdr ++ b ++ ", " ++ o ++ ", " ++ v).data =
      (hdr ++ b' ++ ", " ++ o' ++ ", " ++ v').data := by rw [h]
  rw [key_string_data, key_string_data] at hd
  obtain ⟨h1, h2, h3⟩ :=
    key3_inj hdr.data b.data o.data v.data b'.data o'.data v'.data hb hb' ho ho' hd
  exact ⟨String.ext h1, String.ext h2, String.ext h3⟩

/-- Cancellation for the single-field `"Bucket {}"` key format. -/
theorem key_string_cancel (hdr b b' : String) (h : hdr ++ b = hdr ++ b') : b = b' := by
  have hd : (hdr ++ b).data = (hdr ++ b').data := by rw [h]
  rw [String.data_append, String.data_append] at hd
  exact String.ext (List.append_cancel_left hd)

/-- C1 (counterexample): the claim "inputs differing in any incorporated
field produce different keys" fails: two `GetObject` inputs that differ in
both the bucket and the object field share the same key, because the `", "`
separator also occurs inside a field value. -/
theorem cache_key_not_injective :
    (KeyData.getObject "a, b" "c" "").toKey = (KeyData.getObject "a" "b, c" "").toKey ∧
      KeyData.getObject "a, b" "c" "" ≠ KeyData.getObject "a" "b, c" "" := by
  constructor
  · decide
  · decide

/-- C1 (amended): for each of the six cacheable operations the constructed
key is exactly the spec's recipe string; equal decoded inputs give identical
keys; and inputs differing in an incorporated field give different keys
provided the non-final incorporated (rendered) fields are comma-free —
stated as injectivity of the key on such fields.  (For the list operations
the prefix and delimiter are compared as rendered, i.e. `None` and
`Some ""` coincide.) -/
theorem cache_key_recipe_and_injective :
    (∀ kd : KeyData, kd.toKey = specKeyRecipe kd) ∧
    (∀ b o v b' o' v' : String, commaFree b → commaFree b' → commaFree o → commaFree o' →
      (KeyData.getObject b o v).toKey = (KeyData.getObject b' o' v').toKey →
      b = b' ∧ o = o' ∧ v = v') ∧
    (∀ b o v b' o' v' : String, commaFree b → commaFree b' → commaFree o → commaFree o' →
      (KeyData.headObject b o v).toKey = (KeyData.headObject b' o' v').toKey →
      b = b' ∧ o = o' ∧ v = v') ∧
    (∀ (b b' : String) (p d p' d' : Option String),
      commaFree b → commaFree b' → commaFree (p.getD "") → commaFree (p'.getD "") →
      (KeyData.objectList b p d).toKey = (KeyData.objectList b' p' d').toKey →
      b = b' ∧ p.getD "" = p'.getD "" ∧ d.getD "" = d'.getD "") ∧
    (∀ (b b' : String) (p d p' d' : Option String),
      commaFree b → commaFree b' → commaFree (p.getD "") → commaFree (p'.getD "") →
      (KeyData.objectVersionList b p d).toKey = (KeyData.objectVersionList b' p' d').toKey →
      b = b' ∧ p.getD "" = p'.getD "" ∧ d.getD "" = d'.getD "") ∧
    (∀ b b' : String, (KeyData.bucket b).toKey = (KeyData.bucket b').toKey → b = b') := by
  refine ⟨fun kd => rfl, ?_, ?_, ?_, ?_, ?_⟩
  · intro b o v b' o' v' hb hb' ho ho' h
    exact key_string_inj "GetObject " b o v b' o' v' hb hb' ho ho' h
  · intro b o v b' o' v' hb hb' ho ho' h
    exact key_string_inj "HeadObject " b o v b' o' v' hb hb' ho ho' h
  · intro b b' p d p' d' hb hb' hp hp' h
    exact key_string_inj "ObjectList " b _ _ b' _ _ hb hb' hp hp' h
  · intro b b' p d p' d' hb hb' hp hp' h
    exact key_string_inj "ObjectVersionList " b _ _ b' _ _ hb hb' hp hp' h
  · intro b b' h
    exact key_string_cancel "Bucket " b b' h

/-- C1 (witness): the amended injectivity applied at concrete comma-free
inputs. -/
theorem cache_key_recipe_and_injective_witness :
    ("b" : String) = "b" ∧ ("o" : String) = "o" ∧ ("v1" : String) = "v1" :=
  cache_key_recipe_and_injective.2.1 "b" "o" "v1" "b" "o" "v1"
    (by decide) (by decide) (by decide) (by decide) rfl

/-- C8: composed chains satisfy
`chain(a, b).call(req, next) = a.call(req, fun r => b.call(r, next))` and the
identity stage satisfies `identity.call(req, next) = next.call(req)`, for all
stages, requests and continuations. -/
theorem chain_call_law :
    (∀ (a b : LayerFn) (req : Request) (next : Request → CallResult Response),
      Chain.call a b req next = a req (fun r => b r next)) ∧
    (∀ (req : Request) (next : Request → CallResult Response),
      Identity.call req next = next req) :=
  ⟨fun _ _ _ _ => rfl, fun _ _ => rfl⟩

/-- C4: `make_cache_intent` returns `None` exactly when the operation tag is
missing or not one of the six cacheable operations, or the per-operation
`enabled` flag is false, or an operation-specific bypass field is present on
the decoded input; and when it returns `None` the cache layer forwards the
request to the next stage with the store untouched. -/
theorem make_cache_intent_none_iff :
    (∀ (op : Option OperationType) (config : CacheMiddlewareConfig),
      (S3Extension.make_cache_intent op config = none ↔
        match op with
        | none => True
        | some (.other _) => True
        | some (.getObject d) =>
            config.ops.get_object.enabled = false ∨ d.range.isSome ∨ d.part_number.isSome
        | some (.headObject d) =>
            config.ops.head_object.enabled = false ∨ d.expected_bucket_owner.isSome ∨ d.range.isSome
        | some (.listObjects d) =>
            config.ops.list_objects.enabled = false ∨ d.expected_bucket_owner.isSome
        | some (.listObjectsV2 d) =>
            config.ops.list_objects.enabled = false ∨ d.expected_bucket_owner.isSome ∨
              d.max_keys.isSome ∨ d.start_after.isSome
        | some (.listObjectVersions d) =>
            config.ops.list_object_versions.enabled = false ∨ d.expected_bucket_owner.isSome ∨
              d.key_marker.isSome ∨ d.max_keys.isSome
        | some (.headBucket d) =>
            config.ops.head_bucket.enabled = false ∨ d.expected_bucket_owner.isSome
        | some (.listBuckets _) => config.ops.list_buckets.enabled = false)) ∧
    (∀ (config : CacheMiddlewareConfig) (cache : CacheStore)
        (ser : CacheData → Option RawResponse)
        (policyTtl : Request → Response → Nat → Nat)
        (beforeRequest : Request → Response → Nat → BeforeRequest)
        (now : Nat) (req : Request) (next : Request → CallResult Response),
      S3Extension.make_cache_intent req.op config = none →
      CacheLayer.call config cache ser policyTtl beforeRequest now req next =
        match next req with
        | .ok r => .ok (r, cache)
        | .err e => .err e
        | .panicked m => .panicked m) := by
  constructor
  · intro op config
    match op with
    | none => simp [S3Extension.make_cache_intent]
    | some (.other n) => simp [S3Extension.make_cache_intent]
    | some (.getObject d) =>
      obtain ⟨b, k, vid, rng, pn⟩ := d
      simp only [S3Extension.make_cache_intent, GetObjectInput.make_cache_intent]
      cases he : config.ops.get_object.enabled <;> cases rng <;> cases pn <;> simp [he]
    | some (.headObject d) =>
      obtain ⟨b, k, vid, rng, ebo⟩ := d
      simp only [S3Extension.make_cache_intent, HeadObjectInput.make_cache_intent]
      cases he : config.ops.head_object.enabled <;> cases rng <;> cases ebo <;> simp [he]
    | some (.listObjects d) =>
      obtain ⟨b, p, dl, ebo⟩ := d
      simp only [S3Extension.make_cache_intent, ListObjectsInput.make_cache_intent]
      cases he : config.ops.list_objects.enabled <;> cases ebo <;> simp [he]
    | some (.listObjectsV2 d) =>
      obtain ⟨b, p, dl, ebo, mk, sa⟩ := d
      simp only [S3Extension.make_cache_intent, ListObjectsV2Input.make_cache_intent]
      cases he : config.ops.list_objects.enabled <;> cases ebo <;> cases mk <;> cases sa <;>
        simp [he]
    | some (.listObjectVersions d) =>
      obtain ⟨b, p, dl, ebo, km, mk⟩ := d
      simp only [S3Extension.make_cache_intent, ListObjectVersionsInput.make_cache_intent]
      cases he : config.ops.list_object_versions.enabled <;> cases ebo <;> cases km <;>
        cases mk <;> simp [he]
    | some (.headBucket d) =>
      obtain ⟨b, ebo⟩ := d
      simp only [S3Extension.make_cache_intent, HeadBucketInput.make_cache_intent]
      cases he : config.ops.head_bucket.enabled <;> cases ebo <;> simp [he]
    | some (.listBuckets d) =>
      simp only [S3Extension.make_cache_intent, ListBucketsInput.make_cache_intent]
      cases he : config.ops.list_buckets.enabled <;> simp [he]
  · intro config cache ser policyTtl beforeRequest now req next h
    unfold CacheLayer.call
    rw [h]

/-- C4 (witness): a request without an operation tag bypasses the cache and
is answered by the next stage directly. -/
theorem make_cache_intent_none_iff_witness :
    CacheLayer.call sampleConfig (CacheStore.empty 3) sampleSer stalePolicyTtl
        staleBeforeRequest 0 emptyReq (fun _ => .ok headResp) =
      .ok (headResp, CacheStore.empty 3) :=
  make_cache_intent_none_iff.2 sampleConfig (CacheStore.empty 3) sampleSer stalePolicyTtl
    staleBeforeRequest 0 emptyReq (fun _ => .ok headResp) rfl

/-- C5: when a cached entry exists for the key and the policy's computed TTL
is exactly zero, the lookup returns `Fresh` with the cached response, leaving
the store and the request untouched, and the result does not depend on the
policy's `before_request` dispatch at all. -/
theorem zero_ttl_treated_as_fresh (cache : CacheStore) (key : Key) (req : Request)
    (ser : CacheData → Option RawResponse) (policyTtl : Request → Response → Nat → Nat)
    (now : Nat) (data : CachedResponse) (resp : Response)
    (h1 : cache.get key = some data)
    (h2 : tryIntoResponse ser data = some resp)
    (h3 : policyTtl req resp data.updated_at = 0)
    (br br' : Request → Response → Nat → BeforeRequest) :
    get_matching_response cache key req ser policyTtl br now = (.fresh resp, cache, req) ∧
    get_matching_response cache key req ser policyTtl br now =
      get_matching_response cache key req ser policyTtl br' now := by
  have hmain : ∀ b : Request → Response → Nat → BeforeRequest,
      get_matching_response cache key req ser policyTtl b now = (.fresh resp, cache, req) := by
    intro b
    unfold get_matching_response
    simp [h1, h2, h3]
  exact ⟨hmain br, (hmain br).trans (hmain br').symm⟩

/-- C5 (witness): the zero-TTL special case evaluated on a concrete store,
for two different `before_request` dispatches. -/
theorem zero_ttl_treated_as_fresh_witness :
    get_matching_response headStore "k" emptyReq headSer zeroTtlPolicy brFresh 0 =
        (.fresh headResp, headStore, emptyReq) ∧
    get_matching_response headStore "k" emptyReq headSer zeroTtlPolicy brFresh 0 =
      get_matching_response headStore "k" emptyReq headSer zeroTtlPolicy brStaleNoMatch 0 :=
  zero_ttl_treated_as_fresh headStore "k" emptyReq headSer zeroTtlPolicy 0 headEntry headResp
    (by decide) rfl rfl brFresh brStaleNoMatch

/-- Filtering out one key then searching finds the same entry as searching
directly, unless the searched key is the filtered one. -/
theorem find?_filter_ne (key k : Key) :
    ∀ l : List (Key × CachedResponse),
      (l.filter (fun e => e.1 ≠ key)).find? (fun e => e.1 = k) =
        if k = key then none else l.find? (fun e => e.1 = k)
  | [] => by by_cases h : k = key <;> simp [h]
  | e :: t => by
    by_cases h1 : e.1 = key
    · rw [List.filter_cons_of_neg (by simpa using h1)]
      by_cases h2 : k = key
      · rw [find?_filter_ne key k t, if_pos h2, if_pos h2]
      · rw [find?_filter_ne key k t, if_neg h2, if_neg h2,
          List.find?_cons_of_neg _
            (by simp only [decide_eq_true_eq]; exact fun hek => h2 (hek.symm.trans h1))]
    · rw [List.filter_cons_of_pos (by simpa using h1)]
      by_cases h3 : e.1 = k
      · have hk2 : ¬ k = key := fun hk => h1 (h3.trans hk)
        rw [if_neg hk2, List.find?_cons_of_pos _ (by simpa using h3),
          List.find?_cons_of_pos _ (by simpa using h3)]
      · rw [List.find?_cons_of_neg _ (by simpa using h3)]
        by_cases h2 : k = key
        · rw [find?_filter_ne key k t, if_pos h2, if_pos h2]
        · rw [find?_filter_ne key k t, if_neg h2, if_neg h2,
            List.find?_cons_of_neg _ (by simpa using h3)]

/-- Removing a key removes exactly that key: lookups of the removed key give
`none`, lookups of every other key are unchanged. -/
theorem invalidate_get (s : CacheStore) (key k : Key) :
    (s.invalidate key).get k = if k = key then none else s.get k := by
  obtain ⟨cap, entries⟩ := s
  simp only [CacheStore.invalidate, CacheStore.get, find?_filter_ne key k entries]
  by_cases h : k = key <;> simp [h]

/-- C6: every handled S3 event record invalidates exactly the `GetObject` and
`HeadObject` keys built from its `(bucket, key, version_id)` triple —
invalidation removes exactly the named key — and non-S3 webhook events leave
the cache untouched. -/
theorem event_handler_invalidates :
    (∀ (cache : CacheStore) (r : S3Record),
      applyRecord cache r =
        (cache.invalidate
            (KeyData.getObject r.bucketName r.objectKey r.versionId).toKey).invalidate
          (KeyData.headObject r.bucketName r.objectKey r.versionId).toKey) ∧
    (∀ (s : CacheStore) (key k : Key),
      (s.invalidate key).get k = if k = key then none else s.get k) ∧
    (∀ (cache : CacheStore) (raw t : String),
      applyEvent cache (.http raw) = cache ∧ applyEvent cache (.other t) = cache) := by
  refine ⟨?_, invalidate_get, fun cache raw t => ⟨rfl, rfl⟩⟩
  intro cache r
  obtain ⟨et, b, k, v⟩ := r
  match et with
  | .objectCreated ev => cases ev <;> rfl
  | .objectRemoved ev => cases ev <;> rfl
  | .lifecycleExpiration ev => cases ev <;> rfl
  | .objectRestore ev => cases ev <;> rfl

/-- After eviction the weighted total is within the capacity. -/
theorem evict_le (cap : Nat) : ∀ l, entriesWeight (evict cap l) ≤ cap
  | [] => by simp [evict, entriesWeight]
  | e :: t => by
    unfold evict
    split
    · assumption
    · exact evict_le cap t

/-- Filtering entries can only decrease the weighted total. -/
theorem filter_weight_le (p : Key × CachedResponse → Bool) :
    ∀ l, entriesWeight (l.filter p) ≤ entriesWeight l
  | [] => le_refl _
  | e :: t => by
    by_cases h : p e
    · rw [List.filter_cons_of_pos h]
      have : entriesWeight (e :: List.filter p t) =
          e.2.weight + entriesWeight (List.filter p t) := by simp [entriesWeight]
      rw [this]
      have ht : entriesWeight (e :: t) = e.2.weight + entriesWeight t := by simp [entriesWeight]
      rw [ht]
      exact Nat.add_le_add_left (filter_weight_le p t) _
    · rw [List.filter_cons_of_neg h]
      have ht : entriesWeight (e :: t) = e.2.weight + entriesWeight t := by simp [entriesWeight]
      rw [ht]
      exact le_trans (filter_weight_le p t) (Nat.le_add_left _ _)

/-- Store operations preserve the capacity. -/
theorem run_capacity : ∀ (ops : List CacheOp) (s : CacheStore),
    (s.run ops).capacity = s.capacity
  | [], _ => rfl
  | .insert _ _ :: rest, s => run_capacity rest _
  | .invalidate _ :: rest, s => run_capacity rest _

/-- The weight invariant is preserved by every store operation. -/
theorem run_weight_le : ∀ (ops : List CacheOp) (s : CacheStore),
    s.totalWeight ≤ s.capacity → (s.run ops).totalWeight ≤ s.capacity
  | [], s, h => h
  | .insert k v :: rest, s, _ => by
    have hins : (s.insert k v).totalWeight ≤ (s.insert k v).capacity := by
      simpa [CacheStore.insert, CacheStore.totalWeight, entriesWeight] using
        evict_le s.capacity ((s.entries.filter (fun e => e.1 ≠ k)) ++ [(k, v)])
    have hcap : (s.insert k v).capacity = s.capacity := rfl
    simpa [CacheStore.run, hcap] using run_weight_le rest (s.insert k v) hins
  | .invalidate k :: rest, s, h => by
    have hinv : (s.invalidate k).totalWeight ≤ (s.invalidate k).capacity := by
      refine le_trans ?_ h
      simpa [CacheStore.invalidate, CacheStore.totalWeight, entriesWeight] using
        filter_weight_le (fun e => decide (e.1 ≠ k)) s.entries
    simpa [CacheStore.run] using run_weight_le rest (s.invalidate k) hinv

/-- C9: along every sequence of store operations starting from the empty
cache, the sum of the entry weights stays within the configured
`cache_size`; the entry size is the byte length of the buffered body for
`GetObject` data and `1` for every other kind (the installed weigher
saturates the size at `u32::MAX`). -/
theorem cache_weight_invariant :
    (∀ (config : CacheMiddlewareConfig) (ops : List CacheOp),
      ((CacheStore.empty config.cache_size).run ops).totalWeight ≤ config.cache_size) ∧
    (∀ (ttl tti : Option Nat) (t : Nat) (d : CacheData),
      (CachedResponse.mk ttl tti t d).size =
        match d with
        | .getObject _ bytes => bytes.length
        | _ => 1) ∧
    (∀ v : CachedResponse, v.weight = min v.size (2 ^ 32 - 1)) := by
  refine ⟨?_, ?_, fun v => rfl⟩
  · intro config ops
    exact run_weight_le ops (CacheStore.empty config.cache_size) (by simp [CacheStore.empty,
      CacheStore.totalWeight, entriesWeight])
  · intro ttl tti t d
    cases d <;> rfl

/-- C10: on the cache insertion path for `GetObject`, when buffering the
response body fails, `CachedResponse::async_from` panics (the `unwrap` of the
`None` byte buffer) instead of completing. -/
theorem getobject_buffer_failure_panics :
    getObjectAsyncFrom "m" failingGetResponse 7 =
      .panicked "called Option::unwrap on a None value" := rfl

/-- C2: after a stale cache hit, when the upstream fails with
`SendError::ResponseErr` carrying `304 Not Modified`, the decision between
"serve the cached response" and "forward the 304" is taken on the presence of
an `ETag` header on the original request — so a client that sent its own
conditional `If-None-Match` header (and, as clients do, no `ETag` header)
receives the cached `200` response instead of the `304` the claim
prescribes. -/
theorem stale_304_client_conditional :
    CacheLayer.call sampleConfig sampleStore sampleSer stalePolicyTtl staleBeforeRequest 9
        conditionalReq next304 = .ok (cachedWireResponse, sampleStore) ∧
    conditionalReq.hasHeader "if-none-match" = true ∧
    conditionalReq.hasHeader "etag" = false ∧
    cachedWireResponse.status = 200 ∧ resp304.status = 304 := by
  refine ⟨?_, by decide, by decide, rfl, rfl⟩
  rfl

/-- C3 (counterexample): the insertion path performs no status check — a
`206 Partial Content` response tagged `GetObject` is inserted into the cache,
although the claim says only `200` responses are inserted. -/
theorem insert_without_status_check :
    insertPhase "k" intent206 resp206 3 (CacheStore.empty 100) =
      .ok (resp206, ⟨100, [("k", ⟨some 7, some 8, 3, .getObject "m" [1, 2]⟩)]⟩) ∧
    resp206.status ≠ 200 := by
  constructor
  · rfl
  · decide

/-- C3 (amended): after an `Ok` upstream response, a cache entry (with the
intent's per-operation TTL/TTI applied) is constructed and inserted whenever
the response's S3 extension carries an operation tag of one of the six
cacheable kinds and the matching decoded output metadata (for `GetObject`,
whenever the body buffers), regardless of the response status; a response
tagged with any other operation — or carrying no S3 extension — is returned
to the caller without inserting anything. -/
theorem insertPhase_characterization :
    (∀ (key : Key) (intent : CacheIntent) (resp : Response) (now : Nat) (cache : CacheStore)
        (tag : OpTag) (dataOpt : Option OutputMeta) (cr : CachedResponse) (resp' : Response),
      resp.s3ext = some ⟨some tag, dataOpt⟩ →
      mkCachedResponse tag dataOpt resp now = .made cr resp' →
      insertPhase key intent resp now cache =
        .ok (resp', cache.insert key { cr with ttl := intent.ttl, tti := intent.tti })) ∧
    (∀ (key : Key) (intent : CacheIntent) (resp : Response) (now : Nat) (cache : CacheStore)
        (n : String) (dataOpt : Option OutputMeta),
      resp.s3ext = some ⟨some (.other n), dataOpt⟩ →
      insertPhase key intent resp now cache = .ok (resp, cache)) ∧
    (∀ (key : Key) (intent : CacheIntent) (resp : Response) (now : Nat) (cache : CacheStore),
      resp.s3ext = none → insertPhase key intent resp now cache = .ok (resp, cache)) := by
  refine ⟨?_, ?_, ?_⟩
  · intro key intent resp now cache tag dataOpt cr resp' h1 h2
    simp [insertPhase, h1, h2]
  · intro key intent resp now cache n dataOpt h
    simp [insertPhase, h, mkCachedResponse]
  · intro key intent resp now cache h
    simp [insertPhase, h]

/-- C3 (witness): a response with no S3 extension passes through the
insertion phase unchanged. -/
theorem insertPhase_characterization_witness :
    insertPhase "k" intent206 headResp 0 (CacheStore.empty 5) =
      .ok (headResp, CacheStore.empty 5) :=
  insertPhase_characterization.2.2 "k" intent206 headResp 0 (CacheStore.empty 5) rfl

/-- A successful phase-1 scan yields a member of the group. -/
theorem phase1Result_mem {l : List Route} {qs : Option OrderedQs} {r : Route}
    (h : phase1Result l qs = some r) : r ∈ l := by
  cases qs with
  | none => exact absurd h (by simp [phase1Result])
  | some q => exact List.mem_of_find?_eq_some h

/-- On a sorted list, `find?` returns a match of minimal sort key. -/
theorem find?_min_of_sorted {p : Route → Bool} :
    ∀ l : List Route, l.Sorted routeLE → ∀ r₀, l.find? p = some r₀ →
      ∀ r ∈ l, p r → routeLE r₀ r
  | [], _, _, hfind, _, _, _ => by simp at hfind
  | a :: t, hsort, r₀, hfind, r, hmem, hp => by
    obtain ⟨ha, ht⟩ := List.sorted_cons.mp hsort
    by_cases hpa : p a
    · rw [List.find?_cons_of_pos _ hpa] at hfind
      obtain rfl : a = r₀ := Option.some.inj hfind
      rcases List.mem_cons.mp hmem with rfl | hmem'
      · exact le_refl _
      · exact ha r hmem'
    · rw [List.find?_cons_of_neg _ hpa] at hfind
      rcases List.mem_cons.mp hmem with rfl | hmem'
      · exact absurd hp hpa
      · exact find?_min_of_sorted t ht r₀ hfind r hmem' hp

/-- In a sorted list, every element relates to the last element. -/
theorem sorted_le_getLast :
    ∀ (l : List Route) (h : l ≠ []), l.Sorted routeLE →
      ∀ y ∈ l, routeLE y (l.getLast h)
  | [], h, _, _, _ => absurd rfl h
  | [a], _, _, y, hy => by
    obtain rfl : y = a := by simpa using hy
    exact le_refl (sortKey y)
  | a :: b :: t, _, hsort, y, hy => by
    obtain ⟨ha, ht⟩ := List.sorted_cons.mp hsort
    rw [List.getLast_cons (by simp)]
    rcases List.mem_cons.mp hy with rfl | hy'
    · exact ha _ (List.getLast_mem (by simp))
    · exact sorted_le_getLast (b :: t) (by simp) ht y hy'

/-- A route that is not a catch-all sorts strictly before any catch-all. -/
theorem sortKey_lt_of_not_final (r rf : Route)
    (hr : isFinalOp r = false) (hf : isFinalOp rf = true) :
    sortKey r < sortKey rf := by
  obtain ⟨hfh, hfq, hfp, hft⟩ : rf.required_headers = [] ∧ rf.required_query_strings = [] ∧
      rf.query_patterns = [] ∧ rf.query_tag = none := by
    simp only [isFinalOp, Bool.and_eq_true, List.isEmpty_iff, Option.isNone_iff_eq_none] at hf
    exact ⟨hf.1.1.1, hf.1.1.2, hf.1.2, hf.2⟩
  have hclass_rf : routeClass rf = 4 := by
    simp [routeClass, hft, hfp]
  rcases hqt : r.query_tag with _ | tag
  · rcases hqp : r.query_patterns with _ | ⟨x, xs⟩
    · -- class 4 on both sides: some requirement list of `r` is nonempty
      have hclass_r : routeClass r = 4 := by simp [routeClass, hqt, hqp]
      simp only [sortKey]
      rw [Prod.Lex.lt_iff]
      refine Or.inr ⟨by rw [hclass_r, hclass_rf], ?_⟩
      rw [Prod.Lex.lt_iff]
      refine Or.inr ⟨by rw [hqp, hfp], ?_⟩
      rw [Prod.Lex.lt_iff]
      rcases hrq : r.required_query_strings with _ | ⟨q1, qt⟩
      · -- no required queries, so required headers must be nonempty
        have hh : r.required_headers ≠ [] := by
          intro hc
          rw [isFinalOp, hqt, hqp, hrq, hc] at hr
          simp at hr
        refine Or.inr ⟨by rw [hfq], ?_⟩
        rw [Prod.Lex.lt_iff]
        exact Or.inl (by
          simp only [hfh, List.length_nil]
          exact OrderDual.toDual_lt_toDual.mpr (List.length_pos.mpr hh))
      · exact Or.inl (by
          simp only [hrq, hfq, List.length_nil]
          exact OrderDual.toDual_lt_toDual.mpr (by simp))
    · -- r has query patterns: class 3 (or 1) < 4
      have : routeClass r = 3 := by simp [routeClass, hqt, hqp]
      simp only [sortKey]
      rw [Prod.Lex.lt_iff]
      exact Or.inl (by simp [this, hclass_rf])
  · -- r has a query tag: class 1 or 2 < 4
    have : routeClass r = 1 ∨ routeClass r = 2 := by
      rcases hqp : r.query_patterns with _ | ⟨x, xs⟩
      · exact Or.inr (by simp [routeClass, hqt, hqp])
      · exact Or.inl (by simp [routeClass, hqt, hqp])
    simp only [sortKey]
    rw [Prod.Lex.lt_iff]
    refine Or.inl ?_
    rcases this with h | h <;> simp [h, hclass_rf]

/-- In a sorted group with exactly one catch-all, the catch-all is the last
route. -/
theorem getLast_of_unique_final (l : List Route) (h : l ≠ [])
    (hs : l.Sorted routeLE) (rf : Route) (hf : l.filter isFinalOp = [rf]) :
    l.getLast h = rf := by
  have hx : l.getLast h ∈ l := List.getLast_mem h
  by_cases hfx : isFinalOp (l.getLast h)
  · have hmem : l.getLast h ∈ l.filter isFinalOp := List.mem_filter.mpr ⟨hx, hfx⟩
    rw [hf] at hmem
    simpa using hmem
  · exfalso
    have hrf_mem : rf ∈ l.filter isFinalOp := by simp [hf]
    have hrf_l : rf ∈ l := (List.mem_filter.mp hrf_mem).1
    have hrf_fin : isFinalOp rf = true := (List.mem_filter.mp hrf_mem).2
    have hle : routeLE rf (l.getLast h) := sorted_le_getLast l h hs rf hrf_l
    have hlt : sortKey (l.getLast h) < sortKey rf :=
      sortKey_lt_of_not_final _ rf (by simpa using hfx) hrf_fin
    exact absurd (lt_of_le_of_lt hle hlt) (lt_irrefl _)

/-- For groups of more than one route, `resolveGroup` runs the generated
match body. -/
theorem resolveGroup_eq_big :
    ∀ (l : List Route), 1 < l.length → ∀ qs headers,
      resolveGroup l qs headers = resolveGroupBig l qs headers
  | [], h, _, _ => by simp at h
  | [_], h, _, _ => by simp at h
  | _ :: _ :: _, _, _, _ => rfl

/-- `resolveGroup` is total: it answers with a member of the group or with
`UnknownOperation`; it cannot fail in any other way. -/
theorem resolveGroup_total (l : List Route) (qs : Option OrderedQs)
    (headers : List String) :
    resolveGroup l qs headers = .unknownOperation ∨
      ∃ r ∈ l, resolveGroup l qs headers = .ok r.name r.needs_full_body := by
  match l with
  | [] => exact Or.inl rfl
  | [r] => exact Or.inr ⟨r, by simp, rfl⟩
  | a :: b :: t =>
    rw [resolveGroup_eq_big _ (by simp) qs headers]
    cases h1 : phase1Result (a :: b :: t) qs with
    | some r =>
      exact Or.inr ⟨r, phase1Result_mem h1, by simp [resolveGroupBig, h1]⟩
    | none =>
      cases h2 : (a :: b :: t).find? (matchesPhase2 qs headers) with
      | some r =>
        exact Or.inr ⟨r, List.mem_of_find?_eq_some h2, by simp [resolveGroupBig, h1, h2]⟩
      | none =>
        by_cases h3 : ((a :: b :: t).filter isFinalOp).length = 1
        · cases h4 : (a :: b :: t).getLast? with
          | some r =>
            exact Or.inr ⟨r, List.mem_of_getLast?_eq_some h4,
              by simp [resolveGroupBig, h1, h2, h3, h4]⟩
          | none => simp at h4
        · exact Or.inl (by simp [resolveGroupBig, h1, h2, h3])

/-- C7: route resolution is total and deterministic, candidate routes are
tried in the order of the priority tuple
`(class, -|query patterns|, -|required queries|, -|required headers|, name)`,
the group's unique catch-all is the default answer once the query and
required-field scans fail, and any unmatched input — including every method
outside HEAD/GET/POST/PUT/DELETE — resolves to `UnknownOperation` rather
than panicking. -/
theorem router_resolution :
    (∀ (table : HttpMethod → S3PathPattern → List Route) (p : S3PathPattern)
        (qs : Option OrderedQs) (headers : List String) (s : String),
      resolve_route table (.other s) p qs headers = .unknownOperation) ∧
    (∀ (table : HttpMethod → S3PathPattern → List Route) (m : HttpMethod)
        (p : S3PathPattern) (qs : Option OrderedQs) (headers : List String),
      resolve_route table m p qs headers = .unknownOperation ∨
        ∃ r ∈ table m p, resolve_route table m p qs headers = .ok r.name r.needs_full_body) ∧
    (∀ (g : List Route) (q : OrderedQs) (headers : List String), 1 < g.length →
      (∃ r ∈ g, matchesPhase1 q r = true) →
      ∃ r₀ ∈ g, matchesPhase1 q r₀ = true ∧
        resolveGroup (sortRoutes g) (some q) headers = .ok r₀.name r₀.needs_full_body ∧
        ∀ r ∈ g, matchesPhase1 q r = true → sortKey r₀ ≤ sortKey r) ∧
    (∀ (g : List Route) (qs : Option OrderedQs) (headers : List String) (rf : Route),
      1 < g.length →
      (∀ r ∈ g, ∀ q, qs = some q → matchesPhase1 q r = false) →
      (∀ r ∈ g, matchesPhase2 qs headers r = false) →
      g.filter isFinalOp = [rf] →
      resolveGroup (sortRoutes g) qs headers = .ok rf.name rf.needs_full_body) := by
  have hperm : ∀ g : List Route, List.Perm (sortRoutes g) g :=
    fun g => List.perm_insertionSort routeLE g
  have hsorted : ∀ g : List Route, (sortRoutes g).Sorted routeLE :=
    fun g => List.sorted_insertionSort routeLE g
  have hlen : ∀ g : List Route, (sortRoutes g).length = g.length :=
    fun g => (hperm g).length_eq
  refine ⟨fun _ _ _ _ _ => rfl, ?_, ?_, ?_⟩
  · -- totality
    intro table m p qs headers
    have htot : ∀ g : List Route,
        resolveGroup (sortRoutes g) qs headers = .unknownOperation ∨
          ∃ r ∈ g, resolveGroup (sortRoutes g) qs headers = .ok r.name r.needs_full_body := by
      intro g
      rcases resolveGroup_total (sortRoutes g) qs headers with h | ⟨r, hr, h⟩
      · exact Or.inl h
      · exact Or.inr ⟨r, (hperm g).mem_iff.mp hr, h⟩
    cases m with
    | other s => exact Or.inl rfl
    | head => exact htot (table .head p)
    | get => exact htot (table .get p)
    | post => exact htot (table .post p)
    | put => exact htot (table .put p)
    | delete => exact htot (table .delete p)
  · -- phase-1 priority order
    intro g q headers hglen hex
    have hex' : ∃ r ∈ sortRoutes g, matchesPhase1 q r = true := by
      obtain ⟨r, hr, hp⟩ := hex
      exact ⟨r, (hperm g).mem_iff.mpr hr, hp⟩
    have hissome : ((sortRoutes g).find? (matchesPhase1 q)).isSome :=
      List.find?_isSome.mpr (by simpa using hex')
    obtain ⟨r₀, hfind⟩ := Option.isSome_iff_exists.mp hissome
    refine ⟨r₀, (hperm g).mem_iff.mp (List.mem_of_find?_eq_some hfind),
      List.find?_some hfind, ?_, ?_⟩
    · rw [resolveGroup_eq_big _ (by rw [hlen]; exact hglen) _ headers]
      simp [resolveGroupBig, phase1Result, hfind]
    · intro r hr hp
      exact find?_min_of_sorted (sortRoutes g) (hsorted g) r₀ hfind r
        ((hperm g).mem_iff.mpr hr) hp
  · -- catch-all default
    intro g qs headers rf hglen hph1 hph2 hfilter
    have hfilter' : (sortRoutes g).filter isFinalOp = [rf] :=
      List.perm_singleton.mp (by rw [← hfilter]; exact (hperm g).filter isFinalOp)
    have hne : sortRoutes g ≠ [] := by
      intro hnil
      have h0 : (0 : Nat) = g.length := by simpa [hnil] using hlen g
      omega
    have hlast : (sortRoutes g).getLast? = some rf := by
      rw [List.getLast?_eq_getLast _ hne,
        getLast_of_unique_final _ hne (hsorted g) rf hfilter']
    have h1 : phase1Result (sortRoutes g) qs = none := by
      cases qs with
      | none => rfl
      | some q =>
        simp only [phase1Result]
        rw [List.find?_eq_none]
        intro x hx
        simp [hph1 x ((hperm g).mem_iff.mp hx) q rfl]
    have h2 : (sortRoutes g).find? (matchesPhase2 qs headers) = none := by
      rw [List.find?_eq_none]
      intro x hx
      simp [hph2 x ((hperm g).mem_iff.mp hx)]
    have h3 : ((sortRoutes g).filter isFinalOp).length = 1 := by rw [hfilter']; rfl
    rw [resolveGroup_eq_big _ (by rw [hlen]; exact hglen) qs headers]
    simp [resolveGroupBig, h1, h2, h3, hlast]

/-- C7 (witness): in a group holding the `?acl`-tagged route and a catch-all,
a `PUT /bucket` request without a query string falls through to the
catch-all. -/
theorem router_resolution_witness :
    resolveGroup (sortRoutes sampleGroup) none [] = .ok "CreateBucket" false :=
  router_resolution.2.2.2 sampleGroup none [] catchAllRoute (by decide)
    (fun _ _ q h => nomatch h) (by decide) (by decide)

end S3P
